import Mathlib

/-!
Verification development for the conversation-persistence and chat-session
core of the `lovableaiproject` repository.

The Lean definitions below are a shallow embedding of the Python classes
`StorageManager` (src/gemini-x/utils/storage_manager.py) and
`GeminiManager` (src/gemini-x/utils/gemini_manager.py).  The Google Cloud
Storage bucket is modelled as an association list from blob names to the
JSON documents stored under them; the Vertex AI model backend is modelled
as an explicit function parameter.
-/

namespace Gx

/-! ## JSON payloads

`save_interaction` serialises the Python dict rendered by
`json.dumps({"role": role, "content": content})`; `get_interaction` parses
it back with `json.loads`.  We model JSON documents by an inductive type
with string leaves and objects (the only shapes this program produces),
treating `dumps`/`loads` as the identity embedding into this type. -/

inductive Json where
  | str : String → Json
  | obj : List (String × Json) → Json

/-- The field names of a JSON object, in order (empty for a non-object). -/
def fieldNames : Json → List String
  | .obj l => l.map Prod.fst
  | .str _ => []

/-- The string value stored under field `k` of a JSON object, if any. -/
def fieldStr (j : Json) (k : String) : Option String :=
  match j with
  | .obj l =>
    match l.find? (fun p => p.1 == k) with
    | some (_, .str v) => some v
    | _ => none
  | .str _ => none

/-- The payload `save_interaction` uploads:
`data = {"role": role, "content": content}` (storage_manager.py line 15). -/
def turnJson (role content : String) : Json :=
  .obj [("role", .str role), ("content", .str content)]

/-! ## The blob store

A Google Cloud Storage bucket, modelled as an association list of
(blob name, stored JSON document) pairs.  GCS blob names are flat strings;
"directories" exist only through the prefix filter of `list_blobs`. -/

abbrev Store := List (String × Json)

/-- Does the string `s` start with the string `p`?  This is the semantics
of the `prefix=` filter of `google.cloud.storage.Client.list_blobs`. -/
def hasPre (p s : String) : Bool := decide (p.data <+: s.data)

/-- The blob name `f"{conversation_id}/{n}.json"` built by
`save_interaction` and `get_interaction`. -/
def keyFor (conversation_id : String) (n : Nat) : String :=
  conversation_id ++ "/" ++ Nat.repr n ++ ".json"

/-- `blob.exists()`: is there a blob with this exact name in the bucket? -/
def blobExists (s : Store) (k : String) : Bool :=
  s.any (fun b => b.1 == k)

/-- `blob.download_as_string()` followed by `json.loads`: the document
stored under blob name `k`, if present. -/
def lookupBlob (s : Store) (k : String) : Option Json :=
  (s.find? (fun b => b.1 == k)).map Prod.snd

/-- `blob.upload_from_string(...)`: store `v` under blob name `k`,
overwriting the existing blob of that name if there is one. -/
def putBlob (s : Store) (k : String) (v : Json) : Store :=
  if s.any (fun b => b.1 == k) then
    s.map (fun b => if b.1 == k then (k, v) else b)
  else
    s ++ [(k, v)]

/-- `StorageManager.list_interactions` (storage_manager.py lines 18-21):
`client.list_blobs(bucket_name, prefix=f"{conversation_id}/")`, returning
the blob names. -/
def list_interactions (s : Store) (conversation_id : String) : List String :=
  (s.filter (fun b => hasPre (conversation_id ++ "/") b.1)).map Prod.fst

/-- `StorageManager.save_interaction` (storage_manager.py lines 11-16):
computes `blob_name = f"{cid}/{len(self.list_interactions(cid)) + 1}.json"`
and uploads `json.dumps({"role": role, "content": content})` under it. -/
def save_interaction (s : Store) (conversation_id role content : String) : Store :=
  let blob_name := keyFor conversation_id ((list_interactions s conversation_id).length + 1)
  putBlob s blob_name (turnJson role content)

/-- `StorageManager.get_interaction` (storage_manager.py lines 23-30):
builds `f"{cid}/{interaction_id}.json"`, returns the parsed blob if
`blob.exists()`, else `None`. -/
def get_interaction (s : Store) (conversation_id : String) (n : Nat) : Option Json :=
  let blob_name := keyFor conversation_id n
  if blobExists s blob_name then lookupBlob s blob_name else none

/-! ## Fallible backend behaviour for `clear_storage`

`clear_storage` wraps its list/delete calls in `try/except`.  We model the
backend's failure behaviour explicitly: the listing call may fail, and each
per-blob `delete()` call may fail depending on the blob name. -/

structure Backend where
  listFails : Bool
  deleteFailsOn : String → Bool

/-- A backend on which every call succeeds. -/
def noFail : Backend := ⟨false, fun _ => false⟩

/-- The `for blob in blobs: blob.delete()` loop: deletes the named blobs in
order, stopping with `false` at the first `delete()` that raises. -/
def deleteSeq (bk : Backend) : Store → List String → Store × Bool
  | s, [] => (s, true)
  | s, k :: ks =>
    if bk.deleteFailsOn k then (s, false)
    else deleteSeq bk (s.filter (fun b => !(b.1 == k))) ks

/-- `StorageManager.clear_storage` (storage_manager.py lines 32-55):
lists every blob under `f"{conversation_id}/"`, deletes each, and returns
`len(blobs)`; any exception is caught and `-1` is returned instead. -/
def clear_storage (bk : Backend) (s : Store) (conversation_id : String) : Store × Int :=
  if bk.listFails then (s, -1)
  else
    let ks := (s.filter (fun b => hasPre (conversation_id ++ "/") b.1)).map Prod.fst
    let r := deleteSeq bk s ks
    if r.2 then (r.1, (ks.length : Int)) else (r.1, -1)

/-- Whether the `try` block of `clear_storage` hits an exception on this
backend, store and conversation. -/
def clearFails (bk : Backend) (s : Store) (conversation_id : String) : Bool :=
  bk.listFails ||
    ((s.filter (fun b => hasPre (conversation_id ++ "/") b.1)).map Prod.fst).any
      bk.deleteFailsOn

/-! ## The chat session

`GeminiManager` (src/gemini-x/utils/gemini_manager.py) holds two fields:
`self.model_name` (a string) and `self.model` (a `GenerativeModel` object
constructed from a model name).  A `GenerativeModel` carries no state of
its own beyond the name it was constructed from, so we identify the bound
model object with that name.  The Vertex AI service is an external
collaborator: we model it as a function from (model name, chat history,
message parts) to a response or an error, and we model the fallibility of
the `GenerativeModel` constructor by a validity predicate on model
names. -/

/-- One part of an outbound request: plain text, or binary data tagged
with a MIME type (`Part.from_data(data=..., mime_type=...)`). -/
inductive MsgPart where
  | text : String → MsgPart
  | data : List Nat → String → MsgPart

/-- The mutable state of a `GeminiManager` instance: the recorded model
identifier `self.model_name` and the bound model object `self.model`
(identified by the name it was constructed from). -/
structure GeminiState where
  model_name : String
  model : String

/-- The state established by `GeminiManager.__init__`
(gemini_manager.py lines 6-9). -/
def initGemini : GeminiState :=
  { model_name := "gemini-1.5-pro-preview-0409"
    model := "gemini-1.5-pro-preview-0409" }

/-- The model-serving endpoint: given the bound model, the history of the
chat the message is sent on, and the parts of the message, produce a
response text or fail. -/
abbrev ModelBackend := String → List (List MsgPart) → List MsgPart → Except String String

/-- A chat object as returned by `self.model.start_chat()`: the model it
is bound to and the exchanges made on it so far. -/
structure Chat where
  model : String
  history : List (List MsgPart)

/-- `model.start_chat()`: a fresh chat with empty history. -/
def start_chat (model : String) : Chat := ⟨model, []⟩

/-- `chat.send_message(parts)`: submit the parts on the given chat. -/
def send_message (bk : ModelBackend) (ch : Chat) (parts : List MsgPart) :
    Except String String :=
  bk ch.model ch.history parts

/-- `GeminiManager.change_model` (gemini_manager.py lines 11-26):
inside `try`, first assigns `self.model_name = model_name`, then
constructs `GenerativeModel(model_name)` (which may raise — modelled by
`valid`) and assigns it to `self.model`, returning `True`; on exception
returns `False`.  Note the `model_name` assignment precedes the fallible
constructor call and is not rolled back. -/
def change_model (valid : String → Bool) (g : GeminiState) (model_name : String) :
    GeminiState × Bool :=
  let g1 := { g with model_name := model_name }
  if valid model_name then ({ g1 with model := model_name }, true)
  else (g1, false)

/-- `GeminiManager.send_prompt` (gemini_manager.py lines 28-39):
`chat = self.model.start_chat(); response = chat.send_message(prompt)`. -/
def send_prompt (bk : ModelBackend) (g : GeminiState) (prompt : String) :
    Except String String :=
  send_message bk (start_chat g.model) [MsgPart.text prompt]

/-- `GeminiManager.send_prompt_with_image` (gemini_manager.py lines 41-64):
builds `Part.from_data(data=image_data, mime_type="image/jpeg")`, starts a
fresh chat and sends `[prompt, image_part]`; the `except` clause prints and
re-raises, so the backend outcome is returned unchanged. -/
def send_prompt_with_image (bk : ModelBackend) (g : GeminiState)
    (prompt : String) (image_data : List Nat) : Except String String :=
  let image_part := MsgPart.data image_data "image/jpeg"
  let chat := start_chat g.model
  send_message bk chat [MsgPart.text prompt, image_part]

/-! ## Lemmas about the blob store -/

theorem find?_putMap (s : Store) (k : String) (v : Json) :
    ((s.map (fun b => if b.1 == k then (k, v) else b)).find? (fun b => b.1 == k))
      = if s.any (fun b => b.1 == k) then some (k, v) else none := by
  induction s with
  | nil => rfl
  | cons b t ih =>
    by_cases hb : b.1 = k
    · simp [hb, List.find?]
    · simp only [List.map_cons, List.any_cons]
      rw [if_neg (by simp [hb])]
      rw [List.find?_cons_of_neg _ (by simp [hb]), ih]
      have hbf : (b.1 == k) = false := by simp [hb]
      simp only [hbf, Bool.false_or]

theorem find?_putMap_ne (s : Store) (k : String) (v : Json) (k' : String) (h : k' ≠ k) :
    ((s.map (fun b => if b.1 == k then (k, v) else b)).find? (fun b => b.1 == k'))
      = s.find? (fun b => b.1 == k') := by
  induction s with
  | nil => rfl
  | cons b t ih =>
    by_cases hb : b.1 = k
    · rw [List.map_cons, if_pos (by simp [hb])]
      rw [List.find?_cons_of_neg _ (by simp [Ne.symm h]),
        List.find?_cons_of_neg _ (by simp [hb, Ne.symm h]), ih]
    · rw [List.map_cons, if_neg (by simp [hb])]
      by_cases hb' : b.1 = k'
      · rw [List.find?_cons_of_pos _ (by simp [hb']), List.find?_cons_of_pos _ (by simp [hb'])]
      · rw [List.find?_cons_of_neg _ (by simp [hb']), List.find?_cons_of_neg _ (by simp [hb']), ih]

theorem lookupBlob_putBlob_self (s : Store) (k : String) (v : Json) :
    lookupBlob (putBlob s k v) k = some v := by
  unfold putBlob lookupBlob
  by_cases hx : s.any (fun b => b.1 == k) = true
  · rw [if_pos hx, find?_putMap, if_pos hx]
    rfl
  · rw [if_neg hx, List.find?_append]
    have hnone : s.find? (fun b => b.1 == k) = none := by
      rw [List.find?_eq_none]
      intro x hxm
      intro hbeq
      exact hx (List.any_eq_true.mpr ⟨x, hxm, hbeq⟩)
    rw [hnone]
    simp

theorem lookupBlob_putBlob_ne (s : Store) (k : String) (v : Json) (k' : String)
    (h : k' ≠ k) : lookupBlob (putBlob s k v) k' = lookupBlob s k' := by
  unfold putBlob lookupBlob
  by_cases hx : s.any (fun b => b.1 == k) = true
  · rw [if_pos hx, find?_putMap_ne _ _ _ _ h]
  · rw [if_neg hx, List.find?_append]
    rcases h' : s.find? (fun b => b.1 == k') with _ | b
    · simp [h', Ne.symm h]
    · simp [h']

theorem blobExists_iff (s : Store) (k : String) :
    blobExists s k = true ↔ k ∈ s.map Prod.fst := by
  simp [blobExists, List.any_eq_true, List.mem_map, beq_iff_eq]

theorem blobExists_of_lookup (s : Store) (k : String) (v : Json)
    (h : lookupBlob s k = some v) : blobExists s k = true := by
  unfold lookupBlob at h
  rcases hf : s.find? (fun b => b.1 == k) with _ | b
  · rw [hf] at h; cases h
  · have hb := List.find?_some hf
    have hm := List.mem_of_find?_eq_some hf
    exact List.any_eq_true.mpr ⟨b, hm, hb⟩

theorem putBlob_of_fresh (s : Store) (k : String) (v : Json)
    (h : k ∉ s.map Prod.fst) : putBlob s k v = s ++ [(k, v)] := by
  unfold putBlob
  rw [if_neg]
  intro hx
  rcases List.any_eq_true.mp hx with ⟨b, hb, hbk⟩
  exact h (List.mem_map.mpr ⟨b, hb, beq_iff_eq.mp hbk⟩)

theorem mem_list_interactions (s : Store) (cid k : String) :
    k ∈ list_interactions s cid ↔
      (k ∈ s.map Prod.fst ∧ hasPre (cid ++ "/") k = true) := by
  simp only [list_interactions, List.mem_map, List.mem_filter]
  constructor
  · rintro ⟨b, ⟨hb, hpre⟩, rfl⟩
    exact ⟨⟨b, hb, rfl⟩, hpre⟩
  · rintro ⟨⟨b, hb, rfl⟩, hpre⟩
    exact ⟨b, ⟨hb, hpre⟩, rfl⟩

theorem list_interactions_append_fresh (s : Store) (cid k : String) (v : Json)
    (hk : hasPre (cid ++ "/") k = true) :
    list_interactions (s ++ [(k, v)]) cid = list_interactions s cid ++ [k] := by
  simp [list_interactions, List.filter_append, hk]

theorem lookupBlob_cons_self (b : String × Json) (t : Store) (k : String)
    (h : b.1 = k) : lookupBlob (b :: t) k = some b.2 := by
  unfold lookupBlob
  rw [List.find?_cons_of_pos _ (by simp [h])]
  rfl

theorem lookupBlob_cons_ne (b : String × Json) (t : Store) (k : String)
    (h : b.1 ≠ k) : lookupBlob (b :: t) k = lookupBlob t k := by
  unfold lookupBlob
  rw [List.find?_cons_of_neg _ (by simp [h])]

theorem lookup_filter_key (q : String → Bool) (s : Store) (k : String) :
    lookupBlob (s.filter (fun b => q b.1)) k
      = if q k then lookupBlob s k else none := by
  induction s with
  | nil => simp [lookupBlob]
  | cons b t ih =>
    rw [List.filter_cons]
    by_cases hbk : b.1 = k
    · by_cases hq : q b.1 = true
      · rw [if_pos hq, lookupBlob_cons_self _ _ _ hbk, lookupBlob_cons_self _ _ _ hbk,
          if_pos (hbk ▸ hq)]
      · have hqk : ¬ q k = true := by rw [← hbk]; exact hq
        rw [if_neg hq, ih, if_neg hqk, if_neg hqk]
    · have h1 := lookupBlob_cons_ne b t k hbk
      by_cases hq : q b.1 = true
      · rw [if_pos hq, lookupBlob_cons_ne _ _ _ hbk, ih, h1]
      · rw [if_neg hq, ih, h1]

theorem deleteSeq_eq (bk : Backend) (ks : List String) (s : Store)
    (h : ∀ k ∈ ks, bk.deleteFailsOn k = false) :
    deleteSeq bk s ks = (s.filter (fun b => decide (b.1 ∉ ks)), true) := by
  induction ks generalizing s with
  | nil => simp [deleteSeq]
  | cons k ks ih =>
    rw [deleteSeq, if_neg (by simp [h k (by simp)])]
    rw [ih _ (fun x hx => h x (by simp [hx]))]
    rw [List.filter_filter]
    congr 1
    apply List.filter_congr
    intro b _
    by_cases hbk : b.1 = k
    · simp [hbk]
    · by_cases hbks : b.1 ∈ ks <;> simp [hbk, hbks]

theorem deleteSeq_snd (bk : Backend) (ks : List String) (s : Store) :
    (deleteSeq bk s ks).2 = !(ks.any bk.deleteFailsOn) := by
  induction ks generalizing s with
  | nil => simp [deleteSeq]
  | cons k ks ih =>
    rw [deleteSeq]
    by_cases hk : bk.deleteFailsOn k
    · simp [hk]
    · simp only [hk, if_neg, Bool.false_eq_true, not_false_eq_true, List.any_cons, ih,
        Bool.false_or]

theorem clearFails_spec (bk : Backend) (s : Store) (cid : String) :
    (clear_storage bk s cid).2
      = if clearFails bk s cid then (-1 : Int)
        else ((list_interactions s cid).length : Int) := by
  unfold clear_storage clearFails
  by_cases hl : bk.listFails
  · simp [hl]
  · simp only [hl, if_neg, Bool.false_eq_true, not_false_eq_true, Bool.false_or]
    rw [deleteSeq_snd]
    by_cases ha : ((s.filter (fun b => hasPre (cid ++ "/") b.1)).map Prod.fst).any
        bk.deleteFailsOn
    · simp [ha]
    · simp [ha, list_interactions]

theorem mem_listedKeys_iff (s : Store) (cid : String) (b : String × Json) (hb : b ∈ s) :
    b.1 ∈ (s.filter (fun c => hasPre (cid ++ "/") c.1)).map Prod.fst
      ↔ hasPre (cid ++ "/") b.1 = true := by
  constructor
  · intro hm
    rcases List.mem_map.mp hm with ⟨c, hc, hcb⟩
    have := (List.mem_filter.mp hc).2
    rw [← hcb]
    exact this
  · intro hpre
    exact List.mem_map.mpr ⟨b, List.mem_filter.mpr ⟨hb, hpre⟩, rfl⟩

theorem clear_fst_of_ok (bk : Backend) (s : Store) (cid : String)
    (h : clearFails bk s cid = false) :
    (clear_storage bk s cid).1
      = s.filter (fun b => !(hasPre (cid ++ "/") b.1)) := by
  unfold clearFails at h
  rcases Bool.or_eq_false_iff.mp h with ⟨hl, ha⟩
  unfold clear_storage
  rw [if_neg (by simp [hl])]
  have hforall : ∀ k ∈ (s.filter (fun b => hasPre (cid ++ "/") b.1)).map Prod.fst,
      bk.deleteFailsOn k = false := by
    intro k hk
    by_contra hcon
    have : ((s.filter (fun b => hasPre (cid ++ "/") b.1)).map Prod.fst).any
        bk.deleteFailsOn = true :=
      List.any_eq_true.mpr ⟨k, hk, by revert hcon; cases bk.deleteFailsOn k <;> simp⟩
    rw [this] at ha; cases ha
  simp only [deleteSeq_eq bk _ s hforall]
  apply List.filter_congr
  intro b hbmem
  rw [Bool.eq_iff_iff]
  simp only [decide_eq_true_iff, Bool.not_eq_true']
  rw [not_iff_comm]
  constructor
  · intro hnp
    rw [mem_listedKeys_iff s cid b hbmem]
    revert hnp
    cases hasPre (cid ++ "/") b.1 <;> simp
  · intro hm
    have := (mem_listedKeys_iff s cid b hbmem).mp hm
    simp [this]

theorem list_interactions_filter_out (s : Store) (cid : String) :
    list_interactions (s.filter (fun b => !(hasPre (cid ++ "/") b.1))) cid = [] := by
  unfold list_interactions
  rw [List.filter_filter]
  have : ∀ b : String × Json,
      (hasPre (cid ++ "/") b.1 && !(hasPre (cid ++ "/") b.1)) = false := by
    intro b; cases hasPre (cid ++ "/") b.1 <;> simp
  rw [List.filter_congr (fun b _ => this b)]
  simp

/-! ## String and blob-name lemmas

The decimal representation of a natural number contains no slash, so the
blob name of a turn of conversation D starts with a given conversation
prefix only in the two expected cases (D itself, or D nested under it). -/

theorem hasPre_iff (p s : String) : hasPre p s = true ↔ p.data <+: s.data := by
  simp [hasPre]

theorem keyFor_data (cid : String) (n : Nat) :
    (keyFor cid n).data
      = (cid.data ++ ['/']) ++ ((Nat.repr n).data ++ (".json").data) := by
  simp [keyFor, String.data_append, List.append_assoc]

theorem digitChar_ne_slash (m : Nat) (h : m < 10) : Nat.digitChar m ≠ '/' := by
  interval_cases m <;> decide

theorem toDigitsCore_ne_slash (fuel : Nat) :
    ∀ (n : Nat) (l : List Char), (∀ c ∈ l, c ≠ '/') →
      ∀ c ∈ Nat.toDigitsCore 10 fuel n l, c ≠ '/' := by
  induction fuel with
  | zero => intro n l hl; exact hl
  | succ f ih =>
    intro n l hl
    rw [Nat.toDigitsCore]
    have hd : ∀ c ∈ Nat.digitChar (n % 10) :: l, c ≠ '/' := by
      intro c hc
      rcases List.mem_cons.mp hc with hc | hc
      · subst hc; exact digitChar_ne_slash _ (Nat.mod_lt _ (by omega))
      · exact hl c hc
    by_cases h0 : n / 10 = 0
    · rw [if_pos h0]; exact hd
    · rw [if_neg h0]; exact ih _ _ hd

theorem repr_ne_slash (n : Nat) : ∀ c ∈ (Nat.repr n).data, c ≠ '/' := by
  intro c hc
  have : (Nat.repr n).data = Nat.toDigitsCore 10 (n + 1) n [] := rfl
  rw [this] at hc
  exact toDigitsCore_ne_slash (n + 1) n [] (by intro c hc; cases hc) c hc

theorem keyTail_ne_slash (n : Nat) :
    ∀ c ∈ (Nat.repr n).data ++ (".json").data, c ≠ '/' := by
  intro c hc
  rcases List.mem_append.mp hc with hc | hc
  · exact repr_ne_slash n c hc
  · have : ∀ c ∈ (".json" : String).data, c ≠ '/' := by decide
    exact this c hc

theorem hasPre_keyFor_self (cid : String) (n : Nat) :
    hasPre (cid ++ "/") (keyFor cid n) = true := by
  rw [hasPre_iff, keyFor_data, String.data_append]
  have : ("/" : String).data = ['/'] := rfl
  rw [this]
  exact List.prefix_append _ _

theorem hasPre_keyFor_of_hasPre (C D : String) (n : Nat)
    (h : hasPre (C ++ "/") D = true) :
    hasPre (C ++ "/") (keyFor D n) = true := by
  rw [hasPre_iff] at h ⊢
  rw [keyFor_data]
  calc (C ++ "/").data <+: D.data := h
    _ <+: (D.data ++ ['/']) ++ ((Nat.repr n).data ++ (".json").data) := by
        rw [List.append_assoc]; exact List.prefix_append _ _

theorem not_hasPre_keyFor (C D : String) (n : Nat) (hne : C ≠ D)
    (h : hasPre (C ++ "/") D = false) :
    hasPre (C ++ "/") (keyFor D n) = false := by
  rw [Bool.eq_false_iff]
  intro hcon
  rw [hasPre_iff, keyFor_data, String.data_append] at hcon
  have hslash : ("/" : String).data = ['/'] := rfl
  rw [hslash] at hcon
  set A := C.data with hA
  set B := D.data with hB
  set R := (Nat.repr n).data ++ (".json").data with hR
  have hRs : ∀ c ∈ R, c ≠ '/' := keyTail_ne_slash n
  have hQ : (B ++ ['/']) <+: ((B ++ ['/']) ++ R) := List.prefix_append _ _
  rcases le_or_lt (A ++ ['/']).length (B ++ ['/']).length with hle | hlt
  · have hPQ : (A ++ ['/']) <+: (B ++ ['/']) :=
      List.prefix_of_prefix_length_le hcon hQ hle
    rcases lt_or_eq_of_le (by simpa using hle) with hlt' | heq
    · -- A strictly shorter: A ++ "/" is a prefix of B, i.e. D starts with C ++ "/"
      have hPB : (A ++ ['/']) <+: B := by
        apply List.prefix_of_prefix_length_le hPQ (List.prefix_append _ _)
        simpa using hlt'
      have : hasPre (C ++ "/") D = true := by
        rw [hasPre_iff, String.data_append, hslash]; exact hPB
      rw [this] at h; cases h
    · -- equal lengths: C = D
      have heq' : A ++ ['/'] = B ++ ['/'] :=
        hPQ.eq_of_length (by simpa using heq)
      have hAB : A = B := by
        have := List.append_inj' heq' rfl
        exact this.1
      exact hne (congrArg String.mk hAB)
  · -- A ++ "/" strictly longer than B ++ "/": its last char '/' lands inside R
    have hQP : (B ++ ['/']) <+: (A ++ ['/']) :=
      List.prefix_of_prefix_length_le hQ hcon (le_of_lt hlt)
    rcases hQP with ⟨v, hv⟩
    have hvne : v ≠ [] := by
      intro hnil
      rw [hnil, List.append_nil] at hv
      rw [← hv] at hlt
      exact lt_irrefl _ hlt
    have hvR : v <+: R := by
      rcases hcon with ⟨w, hw⟩
      rw [← hv, List.append_assoc] at hw
      exact ⟨w, List.append_cancel_left hw⟩
    have hlast : v.getLast hvne = '/' := by
      have hsplit : v.dropLast ++ [v.getLast hvne] = v :=
        List.dropLast_concat_getLast hvne
      rw [← hsplit] at hv
      rw [← List.append_assoc] at hv
      have h2 := (List.append_inj' hv rfl).2
      simp only [List.cons.injEq, and_true] at h2
      exact h2
    have hmem : '/' ∈ R := hvR.subset (hlast ▸ List.getLast_mem hvne)
    exact hRs '/' hmem rfl

/-! ## Concrete stores used by witnesses and counterexamples -/

/-- A store reached from the empty bucket by a single sequential writer:
append to C, append to C/x, append to C, then clear C/x.  Its blobs are
C/1.json and C/3.json, so the next append to C computes the already-used
key C/3.json. -/
def cexStore : Store :=
  (clear_storage noFail
    (save_interaction
      (save_interaction (save_interaction [] "C" "user" "a") "C/x" "user" "b")
      "C" "user" "c")
    "C/x").1

/-- The two-turn conversation t1 of the spec's scenario. -/
def wStore : Store :=
  save_interaction (save_interaction [] "t1" "user" "hello") "t1" "gemini" "hi there"

/-- One turn of conversation a and one turn of the nested conversation a/x. -/
def aStore : Store :=
  save_interaction (save_interaction [] "a" "user" "m") "a/x" "user" "p"

/-- On a backend with no injected failures the try block of clear_storage
always succeeds. -/
theorem clearFails_noFail (s : Store) (cid : String) :
    clearFails noFail s cid = false := by
  simp [clearFails, noFail]

/-! ## Claim C1 -/

/-- Claim C1, counterexample: on the single-writer-reachable store
`cexStore` (blobs C/1.json and C/3.json), an append to conversation C
computes the key C/3.json, overwrites the existing blob, and the listed
length stays 2 instead of growing to 3. -/
theorem c1_cex :
    ¬ ((list_interactions (save_interaction cexStore "C" "user" "d") "C").length
        = (list_interactions cexStore "C").length + 1) := by
  decide

/-- Claim C1 (amended): an append to conversation C followed by a list of C
yields a length exactly one greater than the list length immediately
before, provided the blob key the append computes (C/(count+1).json) is not
already present in the store — which is the case in every state a single
writer produces without nested conversation identifiers. -/
theorem c1_append_length (s : Store) (cid role content : String)
    (hfresh : keyFor cid ((list_interactions s cid).length + 1) ∉ s.map Prod.fst) :
    (list_interactions (save_interaction s cid role content) cid).length
      = (list_interactions s cid).length + 1 := by
  simp only [save_interaction]
  rw [putBlob_of_fresh _ _ _ hfresh,
    list_interactions_append_fresh _ _ _ _ (hasPre_keyFor_self cid _)]
  simp

/-- Claim C1, witness: the amended theorem instantiated on the empty store. -/
theorem c1_witness :
    keyFor "t1" ((list_interactions [] "t1").length + 1) ∉ ([] : Store).map Prod.fst
    ∧ (list_interactions (save_interaction [] "t1" "user" "hello") "t1").length
        = (list_interactions [] "t1").length + 1 :=
  ⟨by decide, c1_append_length [] "t1" "user" "hello" (by decide)⟩

/-! ## Claim C2 -/

/-- Claim C2 (confirmed): appending a turn to conversation C and fetching
it back at the sequence number the append assigned (count before the
append, plus one) returns exactly the stored role and content, for every
store, conversation and turn. -/
theorem c2_roundtrip (s : Store) (cid role content : String) :
    get_interaction (save_interaction s cid role content) cid
        ((list_interactions s cid).length + 1) = some (turnJson role content) := by
  simp only [save_interaction, get_interaction]
  have hlook := lookupBlob_putBlob_self s
    (keyFor cid ((list_interactions s cid).length + 1)) (turnJson role content)
  rw [if_pos (blobExists_of_lookup _ _ _ hlook), hlook]

/-! ## Claim C3 -/

/-- Claim C3 (confirmed): an append to conversation C stores its payload
under exactly the key C/(count+1).json, where count is the number of keys
listed under the prefix C/ at append time; the stored payload is a JSON
object whose fields are exactly role and content; and no other key's
payload is affected. -/
theorem c3_append_key_payload (s : Store) (cid role content : String) :
    lookupBlob (save_interaction s cid role content)
        (keyFor cid ((list_interactions s cid).length + 1))
      = some (turnJson role content)
    ∧ fieldNames (turnJson role content) = ["role", "content"]
    ∧ ∀ k, k ≠ keyFor cid ((list_interactions s cid).length + 1) →
        lookupBlob (save_interaction s cid role content) k = lookupBlob s k := by
  refine ⟨?_, rfl, ?_⟩
  · simp only [save_interaction]
    exact lookupBlob_putBlob_self _ _ _
  · intro k hk
    simp only [save_interaction]
    exact lookupBlob_putBlob_ne _ _ _ _ hk

/-- Claim C3, witness: the key/payload theorem instantiated on the empty
store, with the frame part evaluated at an unrelated key. -/
theorem c3_witness :
    lookupBlob (save_interaction [] "t1" "user" "hello") (keyFor "t1" 1)
      = some (turnJson "user" "hello")
    ∧ lookupBlob (save_interaction [] "t1" "user" "hello") "other/1.json"
      = lookupBlob [] "other/1.json" :=
  ⟨(c3_append_key_payload [] "t1" "user" "hello").1,
   (c3_append_key_payload [] "t1" "user" "hello").2.2 "other/1.json" (by decide)⟩

/-! ## Claim C4 -/

/-- Claim C4 (confirmed): when clear_storage succeeds on conversation C it
removes exactly the blobs under the prefix C/, returns the count of keys
that existed under that prefix immediately before the call, and a
subsequent list of C is empty. -/
theorem c4_clear_ok (bk : Backend) (s : Store) (cid : String)
    (h : clearFails bk s cid = false) :
    (clear_storage bk s cid).1 = s.filter (fun b => !(hasPre (cid ++ "/") b.1))
    ∧ (clear_storage bk s cid).2 = ((list_interactions s cid).length : Int)
    ∧ list_interactions (clear_storage bk s cid).1 cid = [] := by
  refine ⟨clear_fst_of_ok bk s cid h, ?_, ?_⟩
  · rw [clearFails_spec, if_neg (by simp [h])]
  · rw [clear_fst_of_ok bk s cid h]
    exact list_interactions_filter_out s cid

/-- Claim C4, witness: clearing the two-turn conversation t1 returns 2 and
leaves its listing empty. -/
theorem c4_witness :
    clearFails noFail wStore "t1" = false
    ∧ (clear_storage noFail wStore "t1").2 = (2 : Int)
    ∧ list_interactions (clear_storage noFail wStore "t1").1 "t1" = [] :=
  ⟨by decide,
   ((c4_clear_ok noFail wStore "t1" (clearFails_noFail _ _)).2.1).trans (by decide),
   (c4_clear_ok noFail wStore "t1" (clearFails_noFail _ _)).2.2⟩

/-! ## Claim C5 -/

/-- Claim C5 (confirmed): clear_storage is total — for every backend
behaviour it returns the sentinel -1 exactly when a listing or deletion
step fails, returns the non-negative pre-call key count otherwise, and the
sign of the result distinguishes failure from success-with-zero-deleted. -/
theorem c5_sentinel (bk : Backend) (s : Store) (cid : String) :
    ((clear_storage bk s cid).2
        = if clearFails bk s cid then (-1 : Int)
          else ((list_interactions s cid).length : Int))
    ∧ ((clear_storage bk s cid).2 < 0 ↔ clearFails bk s cid = true) := by
  refine ⟨clearFails_spec bk s cid, ?_⟩
  rw [clearFails_spec]
  by_cases hc : clearFails bk s cid
  · simp [hc]
  · rw [if_neg hc]
    exact iff_of_false (not_lt.mpr (Int.natCast_nonneg _)) hc

/-! ## Claim C6 -/

/-- Claim C6 (confirmed): when no blob exists at the key for (C, n),
get_interaction returns the explicit absent value none (it is a total
function and cannot raise). -/
theorem c6_get_absent (s : Store) (cid : String) (n : Nat)
    (h : blobExists s (keyFor cid n) = false) :
    get_interaction s cid n = none := by
  simp only [get_interaction]
  rw [if_neg (by simp [h])]

/-- Claim C6, witness: fetching sequence number 3 of the two-turn
conversation t1 yields none. -/
theorem c6_witness :
    blobExists wStore (keyFor "t1" 3) = false ∧ get_interaction wStore "t1" 3 = none :=
  ⟨by decide, c6_get_absent wStore "t1" 3 (by decide)⟩

/-! ## Claim C7 -/

/-- Claim C7, counterexample: on the single-writer-reachable store
`cexStore` the blob C/3.json exists and stores content "c"; the next
append to conversation C overwrites that very blob, changing its stored
content to "d" — an append mutated an existing turn. -/
theorem c7_cex :
    blobExists cexStore (keyFor "C" 3) = true
    ∧ (get_interaction cexStore "C" 3).map (fun j => fieldStr j "content")
        = some (some "c")
    ∧ (get_interaction (save_interaction cexStore "C" "user" "d") "C" 3).map
        (fun j => fieldStr j "content") = some (some "d")
    ∧ some (some "c") ≠ some (some "d") := by
  refine ⟨by decide, by decide, by decide, by decide⟩

/-- Claim C7 (amended): an append whose computed blob key is not already
present never overwrites: it leaves the payload stored at every existing
key unchanged; and clear_storage only removes blobs — after a clear every
key is either absent or still holds exactly its previous payload. -/
theorem c7_no_overwrite (s : Store) (cid role content : String)
    (hfresh : keyFor cid ((list_interactions s cid).length + 1) ∉ s.map Prod.fst) :
    (∀ k, k ∈ s.map Prod.fst →
        lookupBlob (save_interaction s cid role content) k = lookupBlob s k)
    ∧ (∀ k, lookupBlob (clear_storage noFail s cid).1 k = none
          ∨ lookupBlob (clear_storage noFail s cid).1 k = lookupBlob s k) := by
  constructor
  · intro k hk
    have hne : k ≠ keyFor cid ((list_interactions s cid).length + 1) := by
      intro he
      exact hfresh (he ▸ hk)
    simp only [save_interaction]
    exact lookupBlob_putBlob_ne _ _ _ _ hne
  · intro k
    rw [clear_fst_of_ok noFail s cid (clearFails_noFail s cid)]
    rw [lookup_filter_key (fun x => !(hasPre (cid ++ "/") x)) s k]
    by_cases hp : hasPre (cid ++ "/") k
    · left
      rw [if_neg (by simp [hp])]
    · right
      rw [if_pos (by simp [hp])]

/-- Claim C7, witness: the no-overwrite theorem instantiated on the
two-turn conversation t1, evaluated at its first key. -/
theorem c7_witness :
    keyFor "t1" ((list_interactions wStore "t1").length + 1) ∉ wStore.map Prod.fst
    ∧ lookupBlob (save_interaction wStore "t1" "user" "x") (keyFor "t1" 1)
        = lookupBlob wStore (keyFor "t1" 1)
    ∧ (lookupBlob (clear_storage noFail wStore "t1").1 (keyFor "t1" 1) = none
        ∨ lookupBlob (clear_storage noFail wStore "t1").1 (keyFor "t1" 1)
            = lookupBlob wStore (keyFor "t1" 1)) :=
  ⟨by decide,
   (c7_no_overwrite wStore "t1" "user" "x" (by decide)).1 (keyFor "t1" 1) (by decide),
   (c7_no_overwrite wStore "t1" "user" "x" (by decide)).2 (keyFor "t1" 1)⟩

/-! ## Claim C8 -/

/-- A validity predicate for model names under which only the name "good"
can be bound (the GenerativeModel constructor raises on any other). -/
def validEx : String → Bool := fun nm => nm == "good"

/-- A model backend that answers with the name of the model it was
addressed as (used only to observe which model a send uses). -/
def echoBk : ModelBackend := fun m _ _ => Except.ok m

/-- Claim C8, counterexample: starting from a session bound to the valid
model "good", a failed configure to "bad" returns false but leaves
model_name = "bad" — the recorded model identifier is NOT restored, so the
session is half-configured (the bound model object alone stays "good"). -/
theorem c8_cex :
    (change_model validEx ⟨"good", "good"⟩ "bad").2 = false
    ∧ (change_model validEx ⟨"good", "good"⟩ "bad").1.model_name ≠ "good"
    ∧ (change_model validEx ⟨"good", "good"⟩ "bad").1.model = "good" := by
  refine ⟨by decide, by decide, by decide⟩

/-- Claim C8 (amended): a failed configure returns false and leaves the
bound model object untouched, so a subsequent send still talks to the
previously bound model — but the recorded model identifier is overwritten
with the new (invalid) name rather than restored. -/
theorem c8_failed_configure (valid : String → Bool) (g : GeminiState) (nm : String)
    (h : valid nm = false) :
    (change_model valid g nm).2 = false
    ∧ (change_model valid g nm).1.model = g.model
    ∧ (change_model valid g nm).1.model_name = nm
    ∧ ∀ (bk : ModelBackend) (p : String),
        send_prompt bk (change_model valid g nm).1 p = bk g.model [] [MsgPart.text p] := by
  simp only [change_model]
  rw [if_neg (by simp [h])]
  exact ⟨rfl, rfl, rfl, fun bk p => rfl⟩

/-- Claim C8, witness: the amended theorem instantiated at the initial
session and the invalid name "bad", with the send observed on `echoBk`. -/
theorem c8_witness :
    validEx "bad" = false
    ∧ (change_model validEx initGemini "bad").2 = false
    ∧ (change_model validEx initGemini "bad").1.model = initGemini.model
    ∧ (change_model validEx initGemini "bad").1.model_name = "bad"
    ∧ send_prompt echoBk (change_model validEx initGemini "bad").1 "hi"
        = echoBk initGemini.model [] [MsgPart.text "hi"] :=
  have h := c8_failed_configure validEx initGemini "bad" (by decide)
  ⟨by decide, h.1, h.2.1, h.2.2.1, h.2.2.2 echoBk "hi"⟩

/-! ## Claim C9 -/

/-- A model backend that fails every exchange. -/
def failBk : ModelBackend := fun _ _ _ => Except.error "boom"

/-- Claim C9 (confirmed): send_prompt_with_image submits, on a freshly
started exchange (empty history), exactly two parts — the prompt text and
a binary part tagged "image/jpeg" — and its result is exactly the backend
outcome, so any backend error propagates to the caller unchanged, as for
send_prompt. -/
theorem c9_two_parts (bk : ModelBackend) (g : GeminiState) (prompt : String)
    (image_data : List Nat) :
    send_prompt_with_image bk g prompt image_data
      = bk g.model [] [MsgPart.text prompt, MsgPart.data image_data "image/jpeg"]
    ∧ ∀ e, bk g.model [] [MsgPart.text prompt, MsgPart.data image_data "image/jpeg"]
          = Except.error e →
        send_prompt_with_image bk g prompt image_data = Except.error e :=
  ⟨rfl, fun _ he => he⟩

/-- Claim C9, witness: on the always-failing backend the error "boom" is
propagated to the caller. -/
theorem c9_witness :
    failBk initGemini.model [] [MsgPart.text "hi", MsgPart.data [1, 2] "image/jpeg"]
        = Except.error "boom"
    ∧ send_prompt_with_image failBk initGemini "hi" [1, 2] = Except.error "boom" :=
  ⟨rfl, (c9_two_parts failBk initGemini "hi" [1, 2]).2 "boom" rfl⟩

/-! ## Claim C10 -/

/-- Claim C10 (confirmed): for distinct conversations C and D, neither of
which is the other extended by a slash-separated suffix, an append to C
and a successful clear of C leave every turn key of D unchanged and a list
of C never contains a turn key of D; if instead D's identifier starts with
"C/", a clear of C removes D's turn keys and a list of C includes every
turn key of D present in the store. -/
theorem c10_isolation (C D : String) (s : Store) (role content : String) (n : Nat) :
    (C ≠ D → hasPre (C ++ "/") D = false → hasPre (D ++ "/") C = false →
      (lookupBlob (save_interaction s C role content) (keyFor D n)
          = lookupBlob s (keyFor D n)
        ∧ lookupBlob (clear_storage noFail s C).1 (keyFor D n)
            = lookupBlob s (keyFor D n)
        ∧ keyFor D n ∉ list_interactions s C))
    ∧ (hasPre (C ++ "/") D = true →
      (lookupBlob (clear_storage noFail s C).1 (keyFor D n) = none
        ∧ (keyFor D n ∈ s.map Prod.fst → keyFor D n ∈ list_interactions s C))) := by
  constructor
  · intro hne h2 _
    have hKnp : hasPre (C ++ "/") (keyFor D n) = false := not_hasPre_keyFor C D n hne h2
    refine ⟨?_, ?_, ?_⟩
    · have hwr : keyFor D n ≠ keyFor C ((list_interactions s C).length + 1) := by
        intro he
        rw [he] at hKnp
        rw [hasPre_keyFor_self] at hKnp
        cases hKnp
      simp only [save_interaction]
      exact lookupBlob_putBlob_ne _ _ _ _ hwr
    · rw [clear_fst_of_ok noFail s C (clearFails_noFail s C)]
      rw [lookup_filter_key (fun x => !(hasPre (C ++ "/") x)) s (keyFor D n)]
      rw [if_pos (by simp [hKnp])]
    · intro hmem
      have := (mem_list_interactions s C (keyFor D n)).mp hmem
      rw [hKnp] at this
      cases this.2
  · intro hD
    have hKp : hasPre (C ++ "/") (keyFor D n) = true := hasPre_keyFor_of_hasPre C D n hD
    constructor
    · rw [clear_fst_of_ok noFail s C (clearFails_noFail s C)]
      rw [lookup_filter_key (fun x => !(hasPre (C ++ "/") x)) s (keyFor D n)]
      rw [if_neg (by simp [hKp])]
    · intro hmem
      exact (mem_list_interactions s C (keyFor D n)).mpr ⟨hmem, hKp⟩

/-- Claim C10, witness: on a store holding one turn of conversation a and
one of the nested conversation a/x, operations on a do not disturb the
unrelated conversation b, while a's listing contains a/x's turn key and a
clear of a removes it. -/
theorem c10_witness :
    (lookupBlob (save_interaction aStore "a" "user" "z") (keyFor "b" 1)
        = lookupBlob aStore (keyFor "b" 1)
      ∧ lookupBlob (clear_storage noFail aStore "a").1 (keyFor "b" 1)
          = lookupBlob aStore (keyFor "b" 1)
      ∧ keyFor "b" 1 ∉ list_interactions aStore "a")
    ∧ (lookupBlob (clear_storage noFail aStore "a").1 (keyFor "a/x" 1) = none
      ∧ keyFor "a/x" 1 ∈ list_interactions aStore "a") :=
  ⟨(c10_isolation "a" "b" aStore "user" "z" 1).1 (by decide) (by decide) (by decide),
   have h := (c10_isolation "a" "a/x" aStore "user" "z" 1).2 (by decide)
   ⟨h.1, h.2 (by decide)⟩⟩

end Gx
